import Mathlib

/-!
Shallow embedding of the cpuline repository (tilpner/cpuline), a terminal
CPU-load visualizer, for checking its natural-language specification.

The repository has two source files:
 * `src/cpu.rs` — the full 10-field `CPU` counter structure, `Stat::read`
   (parsing of the `/proc/stat` counter table), `Stat::load_since`
   (snapshot differencing), `CPU::diff` and the derived time quantities.
 * `src/main.rs` — a minimal 4-field `CPU` variant, a time-aware
   `Stat`/`Load` (capture instants, elapsed `Duration`), and the main loop
   which converts the elapsed duration into an expected tick budget and a
   per-core utilization fraction.

Machine integers (`u64`) are embedded as `Nat`; the unguarded `u64`
subtraction in `CPU::diff` is embedded with its release-mode wrapping
semantics, written explicitly modulo `2^64` (debug builds would panic on
the same inputs instead of wrapping). `VecMap<CPU>` (a sparse map from a
core index to its counters) is embedded as a lookup function
`Nat → Option CPU`. Fallible code (Rust panics via `expect`/`unwrap`) is
embedded in `Option`, `none` marking the panic. The `f32`/`f64` arithmetic
of the main loop is embedded over exact rationals, extended with infinity
and NaN points so that IEEE-754 division by zero is represented faithfully;
concrete values used in theorems are exactly representable, so no rounding
is lost on them.

Components the spec describes that are not present under the two source
files (the sliding window and the busy-fraction calculator) are modelled
from the spec's own words; their doc comments say so explicitly.
-/

namespace Cpuline

/-- The modulus of Rust's `u64` type. -/
def u64Size : Nat := 2 ^ 64

/-- Rust release-mode wrapping subtraction on `u64`, over the `Nat`
embedding: `(a - b) mod 2^64`. Written so that it is total on `Nat`
(`b % u64Size < u64Size ≤ a + u64Size`, so the `Nat` subtraction below
never truncates); on actual `u64` values (`a, b < 2^64`) it agrees with
`a.wrapping_sub(b)`. -/
def sub64 (a b : Nat) : Nat := (a + u64Size - b % u64Size) % u64Size

theorem sub64_self (a : Nat) : sub64 a a = 0 := by
  unfold sub64 u64Size
  omega

theorem sub64_of_le (a b : Nat) (hb : b ≤ a) (ha : a < u64Size) :
    sub64 a b = a - b := by
  unfold sub64 u64Size at *
  omega

namespace CpuRs

/-- `src/cpu.rs` `struct CPU`: one core's cumulative time-in-state
counters, all `u64` ticks. -/
structure CPU where
  user : Nat
  nice : Nat
  system : Nat
  idle : Nat
  iowait : Nat
  irq : Nat
  softirq : Nat
  steal : Nat
  guest : Nat
  guest_nice : Nat
deriving DecidableEq, Repr

/-- `src/cpu.rs` `CPU::diff`: unguarded field-wise `u64` subtraction
(release-mode wrapping semantics). -/
def CPU.diff (self other : CPU) : CPU where
  user := sub64 self.user other.user
  nice := sub64 self.nice other.nice
  system := sub64 self.system other.system
  idle := sub64 self.idle other.idle
  iowait := sub64 self.iowait other.iowait
  irq := sub64 self.irq other.irq
  softirq := sub64 self.softirq other.softirq
  steal := sub64 self.steal other.steal
  guest := sub64 self.guest other.guest
  guest_nice := sub64 self.guest_nice other.guest_nice

/-- `src/cpu.rs` `CPU::idle_time`. -/
def CPU.idle_time (c : CPU) : Nat := c.idle + c.iowait

/-- `src/cpu.rs` `CPU::user_time` (guest and guest_nice are already
accounted for in user and nice). -/
def CPU.user_time (c : CPU) : Nat := c.user + c.nice

/-- `src/cpu.rs` `CPU::system_time`. -/
def CPU.system_time (c : CPU) : Nat := c.system + c.irq + c.softirq

/-- `src/cpu.rs` `CPU::busy_time`. -/
def CPU.busy_time (c : CPU) : Nat := c.user_time + c.system_time + c.steal

/-- `src/cpu.rs` `CPU::total_time`. -/
def CPU.total_time (c : CPU) : Nat := c.busy_time + c.idle_time

/-- The all-zero counter reading. -/
def CPU.zero : CPU := ⟨0, 0, 0, 0, 0, 0, 0, 0, 0, 0⟩

/-- Field-wise `≤` between two readings (`older ≤ newer` is the
monotonicity invariant of the spec's §3). -/
def CPU.fieldLe (o n : CPU) : Prop :=
  o.user ≤ n.user ∧ o.nice ≤ n.nice ∧ o.system ≤ n.system ∧
  o.idle ≤ n.idle ∧ o.iowait ≤ n.iowait ∧ o.irq ≤ n.irq ∧
  o.softirq ≤ n.softirq ∧ o.steal ≤ n.steal ∧ o.guest ≤ n.guest ∧
  o.guest_nice ≤ n.guest_nice

instance (o n : CPU) : Decidable (CPU.fieldLe o n) := by
  unfold CPU.fieldLe; infer_instance

/-- All fields fit in a `u64` (automatic for values produced by the Rust
code; a side condition of the `Nat` embedding). -/
def CPU.inRange (c : CPU) : Prop :=
  c.user < u64Size ∧ c.nice < u64Size ∧ c.system < u64Size ∧
  c.idle < u64Size ∧ c.iowait < u64Size ∧ c.irq < u64Size ∧
  c.softirq < u64Size ∧ c.steal < u64Size ∧ c.guest < u64Size ∧
  c.guest_nice < u64Size

instance (c : CPU) : Decidable (CPU.inRange c) := by
  unfold CPU.inRange u64Size; infer_instance

/-- Field-wise addition on readings (used to state that `diff` inverts
addition). -/
def CPU.add (a b : CPU) : CPU where
  user := a.user + b.user
  nice := a.nice + b.nice
  system := a.system + b.system
  idle := a.idle + b.idle
  iowait := a.iowait + b.iowait
  irq := a.irq + b.irq
  softirq := a.softirq + b.softirq
  steal := a.steal + b.steal
  guest := a.guest + b.guest
  guest_nice := a.guest_nice + b.guest_nice

/-- `src/cpu.rs` `struct Stat`: one snapshot — the optional aggregate
`cpu ` line and the per-core map. `VecMap<CPU>` is embedded by its lookup
function. -/
structure Stat where
  total : Option CPU
  cores : Nat → Option CPU

/-- `src/cpu.rs` `struct Load`: the diff of two snapshots. -/
structure Load where
  total : Option CPU
  cores : Nat → Option CPU

/-- `src/cpu.rs` `Stat::load_since`: aggregate delta only when both
snapshots carry one; per-core deltas via
`self.cores.iter().flat_map(|(idx, core)| earlier.cores.get(idx).map(…))`,
i.e. a core index survives exactly when present in both maps. -/
def Stat.load_since (self earlier : Stat) : Load where
  total :=
    match self.total, earlier.total with
    | some now, some old => some (now.diff old)
    | _, _ => none
  cores := fun idx =>
    (self.cores idx).bind fun core =>
      (earlier.cores idx).map fun ec => core.diff ec

end CpuRs

/-- Idealized model of an IEEE-754 `f32`/`f64` value as used by the main
loop: nonnegative finite values are carried as exact rationals (the
rounding of the conversion and of the division is ignored; every concrete
value appearing in a theorem below is exactly representable), plus the
infinity and NaN points produced by division by zero. -/
inductive F32 where
  | fin (q : ℚ)
  | inf
  | nan
deriving DecidableEq, Repr

/-- IEEE-754 division for nonnegative operands over the `F32` model:
`x / 0` is `+∞` for `x > 0` and NaN for `x = 0`; finite by finite is exact
rational division. Shapes with a nonfinite operand do not occur in the
embedded code and are mapped to NaN. -/
def F32.div : F32 → F32 → F32
  | .fin a, .fin b =>
    if b = 0 then (if a = 0 then .nan else .inf) else .fin (a / b)
  | _, _ => .nan

/-- Membership of an `F32` value in the closed interval [0, 1] (NaN and
the infinities are not in it). -/
def F32.inUnit : F32 → Prop
  | .fin q => 0 ≤ q ∧ q ≤ 1
  | _ => False

instance (x : F32) : Decidable (F32.inUnit x) := by
  cases x <;> (unfold F32.inUnit; infer_instance)

namespace MainRs

/-- `src/main.rs` `struct CPU`: the minimal 4-field counter variant. -/
structure CPU where
  user : Nat
  nice : Nat
  system : Nat
  idle : Nat
deriving DecidableEq, Repr

/-- `src/main.rs` `CPU::diff`: unguarded field-wise `u64` subtraction
(release-mode wrapping semantics). -/
def CPU.diff (self other : CPU) : CPU where
  user := sub64 self.user other.user
  nice := sub64 self.nice other.nice
  system := sub64 self.system other.system
  idle := sub64 self.idle other.idle

/-- `src/main.rs` main loop:
`let duration_ticks = load.duration.as_secs() * user_hz
   + (load.duration.subsec_nanos() as f64 / 1E9 * user_hz as f64) as u64;`
The elapsed duration is `secs` whole seconds plus `nanos` nanoseconds
(`nanos < 10^9`); the `as u64` cast of a nonnegative finite `f64` truncates
toward zero, i.e. takes the floor. -/
def duration_ticks (secs nanos user_hz : Nat) : Nat :=
  secs * user_hz + (⌊(nanos : ℚ) / 10 ^ 9 * (user_hz : ℚ)⌋).toNat

/-- `src/main.rs` main loop: `let used = core.user + core.nice + core.system;` -/
def used (core : CPU) : Nat := core.user + core.nice + core.system

/-- `src/main.rs` main loop:
`let used_part = used as f32 / duration_ticks as f32;` — no clamping and
no zero-guard appear in the source. -/
def used_part (core : CPU) (dticks : Nat) : F32 :=
  F32.div (.fin (used core : ℚ)) (.fin (dticks : ℚ))

end MainRs

namespace CpuRs

/-- Accumulator-style splitter behind `splitWhitespace`; `acc` holds the
current token reversed. -/
def splitWsAux : List Char → List Char → List (List Char)
  | [], acc => if acc = [] then [] else [acc.reverse]
  | c :: rest, acc =>
    if c.isWhitespace then
      if acc = [] then splitWsAux rest []
      else acc.reverse :: splitWsAux rest []
    else splitWsAux rest (c :: acc)

/-- Rust `str::split_whitespace`: the maximal runs of non-whitespace
characters, in order. Lines are embedded as `List Char` (byte offsets into
the ASCII lines of a counter table coincide with character offsets). -/
def splitWhitespace (line : List Char) : List (List Char) :=
  splitWsAux line []

/-- Value of a decimal digit character. -/
def digit? (c : Char) : Option Nat :=
  if '0' ≤ c ∧ c ≤ '9' then some (c.toNat - '0'.toNat) else none

/-- Decimal accumulation behind `parseU64`. -/
def parseNatAux : List Char → Nat → Option Nat
  | [], acc => some acc
  | c :: rest, acc =>
    match digit? c with
    | some d => parseNatAux rest (acc * 10 + d)
    | none => none

/-- Rust `str::parse::<u64>().ok()`: nonempty all-digit strings whose
value fits in a `u64` parse; everything else fails. (The idealization
ignores a leading `+`, which never occurs in counter tables.) -/
def parseU64 (tok : List Char) : Option Nat :=
  match tok with
  | [] => none
  | _ =>
    (parseNatAux tok 0).bind fun v =>
      if v < u64Size then some v else none

/-- `src/cpu.rs` `CPU::from_line`. The inner
`fn parse(s: Option<&str>) -> u64` panics (`expect`) when the token stream
is exhausted or a token fails to parse; `none` marks that panic.
(The per-token `trim` of the source is the identity on
whitespace-delimited tokens and is dropped.) -/
def from_line (line : List Char) : Option CPU :=
  match splitWhitespace line with
  | u :: n :: sy :: i :: io :: ir :: so :: st :: g :: gn :: _ => do
    let user ← parseU64 u
    let nice ← parseU64 n
    let system ← parseU64 sy
    let idle ← parseU64 i
    let iowait ← parseU64 io
    let irq ← parseU64 ir
    let softirq ← parseU64 so
    let steal ← parseU64 st
    let guest ← parseU64 g
    let guest_nice ← parseU64 gn
    pure ⟨user, nice, system, idle, iowait, irq, softirq, steal, guest,
          guest_nice⟩
  | _ => none

/-- `VecMap::insert` over the lookup-function embedding. -/
def insertCore (cores : Nat → Option CPU) (idx : Nat) (c : CPU) :
    Nat → Option CPU :=
  fun m => if m = idx then some c else cores m

/-- One iteration of the line loop of `src/cpu.rs` `Stat::read`.
`none` marks a panic, which aborts the whole read; the panics are the
`expect` inside `CPU::from_line`, `line.find(' ').unwrap()` and
`line[OFFSET..first_space].parse().unwrap()` (`OFFSET = 3`). -/
def readLine (stat : Option Stat) (line : List Char) : Option Stat :=
  stat.bind fun s =>
    if ['c', 'p', 'u', ' '].isPrefixOf line then
      (from_line (line.drop 3)).map fun c => { s with total := some c }
    else if ['c', 'p', 'u'].isPrefixOf line then
      match line.findIdx? (fun ch => ch = ' ') with
      | none => none
      | some first_space =>
        match parseU64 ((line.take first_space).drop 3) with
        | none => none
        | some num =>
          (from_line (line.drop first_space)).map fun c =>
            { s with cores := insertCore s.cores num c }
    else some s

/-- `src/cpu.rs` `Stat::read`, over the lines of the counter table (the
file I/O that produces them is the external acquisition collaborator). -/
def statRead (lines : List (List Char)) : Option Stat :=
  lines.foldl readLine (some { total := none, cores := fun _ => none })

end CpuRs

/-- Modelled from the spec: the busy-fraction mode of the
`UtilizationCalculator` (§4.2) is not present under `src/` (only the
derived sums `busy_time`/`total_time` of `src/cpu.rs` are); from the
spec's words: `fraction = busy_time(delta) / total_time(delta)`, with a
fallback of `0.0` when `total_time(delta) == 0`, clamped to [0, 1]. -/
def busy_fraction (delta : CpuRs.CPU) : ℚ :=
  if delta.total_time = 0 then 0
  else min 1 (max 0 ((delta.busy_time : ℚ) / (delta.total_time : ℚ)))

/-- Modelled from the spec: `SlidingWindow<T>` (§3, §4.3) is not present
under `src/`; from the spec's words: a fixed `capacity`, an ordered `data`
sequence of at most `capacity` elements, and a `write_cursor` that wraps
modulo `capacity`. -/
structure SlidingWindow (α : Type) where
  capacity : Nat
  data : List α
  write_cursor : Nat

namespace SlidingWindow

/-- Modelled from the spec: `new(capacity)` returns an empty window
(capacity must be ≥ 1). -/
def new (α : Type) (capacity : Nat) : SlidingWindow α :=
  { capacity := capacity, data := [], write_cursor := 0 }

/-- Modelled from the spec: `sample(value)` — while `len(data) < capacity`
it appends; once full, it overwrites at `write_cursor` and advances
`write_cursor = (write_cursor + 1) mod capacity`. -/
def sample (w : SlidingWindow α) (v : α) : SlidingWindow α :=
  if w.data.length < w.capacity then
    { w with data := w.data ++ [v] }
  else
    { w with
      data := w.data.set w.write_cursor v
      write_cursor := (w.write_cursor + 1) % w.capacity }

/-- Modelled from the spec: `elements()` — the slice from `write_cursor`
to the end, followed by the slice from the start to `write_cursor`
(chronological order, oldest first). -/
def elements (w : SlidingWindow α) : List α :=
  w.data.drop w.write_cursor ++ w.data.take w.write_cursor

/-- Feeding a whole list of samples into a fresh window of the given
capacity, first element first. -/
def run (α : Type) (capacity : Nat) (xs : List α) : SlidingWindow α :=
  xs.foldl sample (new α capacity)

end SlidingWindow

/-! Helper lemmas. -/

theorem sub64_cast_of_le (a b : Nat) (hb : b ≤ a) (ha : a < u64Size) :
    ((sub64 a b : Nat) : ℤ) = (a : ℤ) - (b : ℤ) := by
  rw [sub64_of_le a b hb ha]
  exact Nat.cast_sub hb

namespace CpuRs

theorem CPU.diff_self (c : CPU) : c.diff c = CPU.zero := by
  cases c
  simp [CPU.diff, CPU.zero, sub64_self]

end CpuRs

theorem busy_fraction_zero : busy_fraction CpuRs.CPU.zero = 0 := rfl

namespace SlidingWindow

variable {α : Type}

theorem elements_sample_of_not_full (w : SlidingWindow α) (v : α)
    (hlen : w.data.length < w.capacity) (hcur : w.write_cursor = 0) :
    (w.sample v).elements = w.elements ++ [v] := by
  unfold sample elements
  rw [if_pos hlen]
  simp [hcur]

theorem elements_sample_of_full (w : SlidingWindow α) (v : α)
    (hlen : w.data.length = w.capacity)
    (hcur : w.write_cursor < w.capacity) :
    (w.sample v).elements = w.elements.drop 1 ++ [v] := by
  unfold sample elements
  rw [if_neg (by omega)]
  have hi : w.write_cursor < w.data.length := by omega
  have hset : w.data.set w.write_cursor v
      = w.data.take w.write_cursor ++ v :: w.data.drop (w.write_cursor + 1) :=
    List.set_eq_take_cons_drop v hi
  have hdrop : w.data.drop w.write_cursor
      = w.data.get ⟨w.write_cursor, hi⟩ :: w.data.drop (w.write_cursor + 1) := by
    rw [List.get_eq_getElem]
    exact List.drop_eq_getElem_cons hi
  have htake : (w.data.take w.write_cursor).length = w.write_cursor := by
    simp [List.length_take]
    omega
  rcases Nat.lt_or_ge (w.write_cursor + 1) w.capacity with h2 | h2
  · -- the advanced cursor does not wrap
    rw [Nat.mod_eq_of_lt h2, hset]
    have hcons : w.data.take w.write_cursor ++ v :: w.data.drop (w.write_cursor + 1)
        = (w.data.take w.write_cursor ++ [v]) ++ w.data.drop (w.write_cursor + 1) := by
      simp
    have hlen1 : (w.data.take w.write_cursor ++ [v]).length = w.write_cursor + 1 := by
      simp [htake]
    rw [hcons, List.drop_left' hlen1, List.take_left' hlen1, hdrop,
      List.cons_append, List.drop_one, List.tail_cons, List.append_assoc]
  · -- the advanced cursor wraps to 0
    have heq : w.write_cursor + 1 = w.capacity := by omega
    have hB : w.data.drop (w.write_cursor + 1) = [] := by
      apply List.drop_of_length_le
      omega
    rw [heq, Nat.mod_self, hset, hB, hdrop, hB]
    simp

/-- The state invariant tying a window that has absorbed the sample list
`xs` to the spec-level description: the data holds `min |xs| c` samples,
the cursor is `(|xs| - c) mod c`, and the chronological traversal is the
suffix of `xs` of length at most `c`. -/
def Inv (c : Nat) (xs : List α) (w : SlidingWindow α) : Prop :=
  w.capacity = c ∧ w.data.length = min xs.length c ∧
  w.write_cursor = (xs.length - c) % c ∧
  w.elements = xs.drop (xs.length - c)

theorem inv_new (c : Nat) : Inv c [] (new α c) := by
  refine ⟨rfl, by simp [new], by simp [new], ?_⟩
  simp [new, elements]

theorem inv_sample {c : Nat} {xs : List α} {w : SlidingWindow α} (v : α)
    (hc : 1 ≤ c) (h : Inv c xs w) : Inv c (xs ++ [v]) (w.sample v) := by
  obtain ⟨hcap, hlen, hcur, helts⟩ := h
  by_cases hfull : xs.length < c
  · have hsub : xs.length - c = 0 := by omega
    have hsub' : xs.length + 1 - c = 0 := by omega
    have hl : w.data.length < w.capacity := by
      rw [hlen, hcap]
      omega
    have hc0 : w.write_cursor = 0 := by
      rw [hcur, hsub, Nat.zero_mod]
    refine ⟨?_, ?_, ?_, ?_⟩
    · unfold sample
      rw [if_pos hl]
      exact hcap
    · unfold sample
      rw [if_pos hl]
      simp [hlen]
      omega
    · unfold sample
      rw [if_pos hl]
      simp [hc0, hsub', Nat.zero_mod]
    · rw [elements_sample_of_not_full w v hl hc0, helts, hsub]
      have hlen2 : (xs ++ [v]).length - c = 0 := by
        simp
        omega
      rw [hlen2]
      simp
  · have hxc : c ≤ xs.length := by omega
    have hl : w.data.length = w.capacity := by
      rw [hlen, hcap]
      omega
    have hcc : w.write_cursor < w.capacity := by
      rw [hcur, hcap]
      exact Nat.mod_lt _ (by omega)
    have hsampl : w.sample v
        = { w with data := w.data.set w.write_cursor v,
                   write_cursor := (w.write_cursor + 1) % w.capacity } := by
      unfold sample
      rw [if_neg (by omega)]
    refine ⟨?_, ?_, ?_, ?_⟩
    · rw [hsampl]
      exact hcap
    · rw [hsampl]
      simp [hl, hcap]
      omega
    · rw [hsampl]
      simp only [hcur, hcap, Nat.mod_add_mod, List.length_append,
        List.length_singleton]
      congr 1
      omega
    · have harith : xs.length - c + 1 = xs.length + 1 - c := by omega
      have hle : xs.length + 1 - c ≤ xs.length := by omega
      have hlen2 : (xs ++ [v]).length - c = xs.length + 1 - c := by
        simp
      rw [elements_sample_of_full w v hl hcc, helts, List.drop_drop, harith,
        hlen2, List.drop_append_of_le_length hle]

theorem inv_run (c : Nat) (hc : 1 ≤ c) (xs : List α) :
    Inv c xs (run α c xs) := by
  induction xs using List.reverseRecOn with
  | nil => exact inv_new c
  | append_singleton ys y ih =>
    have hstep : run α c (ys ++ [y]) = (run α c ys).sample y := by
      unfold run
      rw [List.foldl_append]
      rfl
    rw [hstep]
    exact inv_sample y hc ih

end SlidingWindow

/-! Claim theorems. -/

/-- C1: the claim says a decreasing counter (wraparound/reset) must not
underflow and the core's delta must be treated as unavailable for that
tick. The code's `CPU::diff` (both in `src/cpu.rs` and `src/main.rs`)
subtracts unguarded: on a reading whose `user` counter decreased from 1 to
0 the delta `user` field is the wrapped-around huge value `2^64 - 1`
(release mode; a debug build panics on the same input). -/
theorem C1_diff_wraps_on_counter_decrease :
    (CpuRs.CPU.diff ⟨0, 0, 0, 0, 0, 0, 0, 0, 0, 0⟩
        ⟨1, 0, 0, 0, 0, 0, 0, 0, 0, 0⟩).user = 2 ^ 64 - 1 ∧
    (MainRs.CPU.diff ⟨0, 0, 0, 0⟩ ⟨1, 0, 0, 0⟩).user = 2 ^ 64 - 1 := by
  exact ⟨rfl, rfl⟩

/-- C2: the claim says the utilization fraction always lies in [0, 1],
with values above 1 clamped. The main loop of `src/main.rs` computes
`used_part` with no clamp: a delta of 2 busy ticks against a tick budget
of 1 yields the fraction 2, outside [0, 1] and propagated as-is (the
subsequent glyph lookup `FORMAT[(7 * 2.0) as usize]` is out of bounds). -/
theorem C2_used_part_not_clamped :
    MainRs.used_part ⟨2, 0, 0, 0⟩ 1 = F32.fin 2 ∧
    ¬ F32.inUnit (MainRs.used_part ⟨2, 0, 0, 0⟩ 1) := by
  have h : MainRs.used_part ⟨2, 0, 0, 0⟩ 1 = F32.fin 2 := by
    simp [MainRs.used_part, MainRs.used, F32.div]
  refine ⟨h, ?_⟩
  rw [h]
  norm_num [F32.inUnit]

/-- C3: the claim says `duration_ticks == 0` must yield the fallback 0.0.
The main loop of `src/main.rs` divides without a guard: with a tick budget
of 0, a busy delta yields IEEE +∞ (and an idle delta NaN), not 0.0. -/
theorem C3_zero_tick_budget_not_guarded :
    MainRs.used_part ⟨1, 0, 0, 0⟩ 0 = F32.inf ∧
    MainRs.used_part ⟨0, 0, 0, 0⟩ 0 = F32.nan ∧
    F32.inf ≠ F32.fin 0 ∧ F32.nan ≠ F32.fin 0 := by
  refine ⟨?_, ?_, by simp, by simp⟩
  · simp [MainRs.used_part, MainRs.used, F32.div]
  · simp [MainRs.used_part, MainRs.used, F32.div]

/-- C4: the per-core key set of the diff produced by `load_since` is
exactly the intersection of the core indices present in both snapshots; a
core present in only one snapshot is silently excluded (the lookup is
total — no error is raised). -/
theorem C4_load_since_keys_are_intersection (now old : CpuRs.Stat)
    (idx : Nat) :
    ((now.load_since old).cores idx).isSome
      = (((now.cores idx).isSome) && ((old.cores idx).isSome)) := by
  unfold CpuRs.Stat.load_since
  cases hn : now.cores idx <;> cases ho : old.cores idx <;> simp [hn, ho]

/-- C5: for readings with `newer ≥ older` field-wise (and `newer` in `u64`
range, automatic in the source), `diff` yields exactly the field-wise
differences — non-negative, no wrap — and the derived quantities satisfy
`idle_time = idle + iowait`, `user_time = user + nice`,
`system_time = system + irq + softirq`,
`busy_time = user_time + system_time + steal`, and
`busy_time + idle_time = total_time`. -/
theorem C5_diff_exact_and_time_identities (n o : CpuRs.CPU)
    (hle : CpuRs.CPU.fieldLe o n) (hr : CpuRs.CPU.inRange n) :
    (((n.diff o).user : ℤ) = (n.user : ℤ) - o.user ∧
     ((n.diff o).nice : ℤ) = (n.nice : ℤ) - o.nice ∧
     ((n.diff o).system : ℤ) = (n.system : ℤ) - o.system ∧
     ((n.diff o).idle : ℤ) = (n.idle : ℤ) - o.idle ∧
     ((n.diff o).iowait : ℤ) = (n.iowait : ℤ) - o.iowait ∧
     ((n.diff o).irq : ℤ) = (n.irq : ℤ) - o.irq ∧
     ((n.diff o).softirq : ℤ) = (n.softirq : ℤ) - o.softirq ∧
     ((n.diff o).steal : ℤ) = (n.steal : ℤ) - o.steal ∧
     ((n.diff o).guest : ℤ) = (n.guest : ℤ) - o.guest ∧
     ((n.diff o).guest_nice : ℤ) = (n.guest_nice : ℤ) - o.guest_nice) ∧
    ((n.diff o).idle_time = (n.diff o).idle + (n.diff o).iowait ∧
     (n.diff o).user_time = (n.diff o).user + (n.diff o).nice ∧
     (n.diff o).system_time
        = (n.diff o).system + (n.diff o).irq + (n.diff o).softirq ∧
     (n.diff o).busy_time
        = (n.diff o).user_time + (n.diff o).system_time + (n.diff o).steal ∧
     (n.diff o).busy_time + (n.diff o).idle_time = (n.diff o).total_time) := by
  obtain ⟨h1, h2, h3, h4, h5, h6, h7, h8, h9, h10⟩ := hle
  obtain ⟨r1, r2, r3, r4, r5, r6, r7, r8, r9, r10⟩ := hr
  refine ⟨⟨?_, ?_, ?_, ?_, ?_, ?_, ?_, ?_, ?_, ?_⟩, rfl, rfl, rfl, rfl, rfl⟩
  all_goals
    exact sub64_cast_of_le _ _ (by assumption) (by assumption)

/-- Witness for C5 at the aggregate-counter scenario of spec §8. -/
theorem C5_witness :
    CpuRs.CPU.fieldLe ⟨100, 0, 50, 850, 0, 0, 0, 0, 0, 0⟩
        ⟨110, 0, 55, 935, 0, 0, 0, 0, 0, 0⟩ ∧
    CpuRs.CPU.inRange ⟨110, 0, 55, 935, 0, 0, 0, 0, 0, 0⟩ ∧
    ((CpuRs.CPU.diff ⟨110, 0, 55, 935, 0, 0, 0, 0, 0, 0⟩
        ⟨100, 0, 50, 850, 0, 0, 0, 0, 0, 0⟩).busy_time
      + (CpuRs.CPU.diff ⟨110, 0, 55, 935, 0, 0, 0, 0, 0, 0⟩
        ⟨100, 0, 50, 850, 0, 0, 0, 0, 0, 0⟩).idle_time
      = (CpuRs.CPU.diff ⟨110, 0, 55, 935, 0, 0, 0, 0, 0, 0⟩
        ⟨100, 0, 50, 850, 0, 0, 0, 0, 0, 0⟩).total_time) := by
  refine ⟨by decide, by decide, ?_⟩
  exact (C5_diff_exact_and_time_identities
    ⟨110, 0, 55, 935, 0, 0, 0, 0, 0, 0⟩
    ⟨100, 0, 50, 850, 0, 0, 0, 0, 0, 0⟩ (by decide) (by decide)).2.2.2.2.2

/-- C6: diffing a snapshot against itself is the zero of the diff
operation — every per-core delta of `load_since(s, s)` is the all-zero
reading (as is the aggregate delta when present), and the busy-fraction
mode utilization of the zero delta, after the zero-guard, is 0. -/
theorem C6_self_diff_is_zero (s : CpuRs.Stat) (idx : Nat) :
    (s.load_since s).cores idx
      = (s.cores idx).map (fun _ => CpuRs.CPU.zero) ∧
    (s.load_since s).total = s.total.map (fun _ => CpuRs.CPU.zero) ∧
    busy_fraction CpuRs.CPU.zero = 0 := by
  refine ⟨?_, ?_, busy_fraction_zero⟩
  · unfold CpuRs.Stat.load_since
    cases h : s.cores idx <;> simp [h, CpuRs.CPU.diff_self]
  · unfold CpuRs.Stat.load_since
    cases h : s.total <;> simp [h, CpuRs.CPU.diff_self]

/-- C7: counterexample — the claim says the expected tick budget is
`round(duration_seconds * ticks_per_second)`. For a duration of
0.999 s at 100 ticks/s the code computes 99
(`as_secs() * hz + (subsec_nanos as f64 / 1E9 * hz) as u64`, the cast
truncating toward zero), while rounding would give 100. -/
theorem C7_counterexample :
    MainRs.duration_ticks 0 999000000 100 = 99 ∧
    round (((0 : ℚ) + (999000000 : ℚ) / 10 ^ 9) * 100) = 100 ∧
    ¬ ((MainRs.duration_ticks 0 999000000 100 : ℤ)
        = round (((0 : ℚ) + (999000000 : ℚ) / 10 ^ 9) * 100)) := by
  have h1 : MainRs.duration_ticks 0 999000000 100 = 99 := by
    unfold MainRs.duration_ticks
    norm_num
    decide
  have h2 : round (((0 : ℚ) + (999000000 : ℚ) / 10 ^ 9) * 100) = 100 := by
    rw [round_eq]
    norm_num
  refine ⟨h1, h2, ?_⟩
  rw [h1, h2]
  norm_num

/-- C7 amended: in tick-rate mode the expected tick budget is the
truncation (floor), not the rounding, of
`duration_seconds * ticks_per_second` — computed as
`as_secs() * hz` plus the floored subsecond contribution — and the
fraction is `(user + nice + system ticks)` divided by that budget (exact
when the budget is nonzero). -/
theorem C7_amended (secs nanos user_hz : Nat) :
    ((MainRs.duration_ticks secs nanos user_hz : ℤ)
        = ⌊((secs : ℚ) + (nanos : ℚ) / 10 ^ 9) * (user_hz : ℚ)⌋) ∧
    ∀ core dticks, dticks ≠ 0 →
      MainRs.used_part core dticks
        = F32.fin ((MainRs.used core : ℚ) / (dticks : ℚ)) := by
  constructor
  · have hx : (0 : ℚ) ≤ (nanos : ℚ) / 10 ^ 9 * (user_hz : ℚ) := by positivity
    have hfl : (0 : ℤ) ≤ ⌊(nanos : ℚ) / 10 ^ 9 * (user_hz : ℚ)⌋ :=
      Int.floor_nonneg.mpr hx
    unfold MainRs.duration_ticks
    rw [add_mul]
    have hs : (secs : ℚ) * (user_hz : ℚ) = ((secs * user_hz : ℕ) : ℚ) := by
      push_cast
      ring
    rw [hs, Int.floor_nat_add]
    push_cast [Int.toNat_of_nonneg hfl]
    ring
  · intro core dticks h
    simp only [MainRs.used_part, F32.div]
    rw [if_neg (by exact_mod_cast h)]

/-- Witness for C7 amended: a 2.5 s interval at 100 ticks/s gives a budget
of 250 ticks, and a busy delta of 50 ticks gives the exact fraction
50 / 250. -/
theorem C7_amended_witness :
    (MainRs.duration_ticks 2 500000000 100 = 250) ∧
    ((250 : ℕ) ≠ 0 ∧
     MainRs.used_part ⟨30, 5, 15, 0⟩ 250
        = F32.fin ((MainRs.used ⟨30, 5, 15, 0⟩ : ℚ) / ((250 : ℕ) : ℚ))) := by
  constructor
  · have h := (C7_amended 2 500000000 100).1
    have : (⌊(((2 : ℕ) : ℚ) + ((500000000 : ℕ) : ℚ) / 10 ^ 9)
        * ((100 : ℕ) : ℚ)⌋ : ℤ) = 250 := by
      push_cast
      norm_num
    omega
  · exact ⟨by decide, (C7_amended 0 0 0).2 ⟨30, 5, 15, 0⟩ 250 (by decide)⟩

/-- C8: code-bug evidence — the claim says a malformed or short line never
crashes the parse, is skipped, and the remaining lines are still
processed. In `src/cpu.rs`, `CPU::from_line` panics (`expect`) on the
short line `"cpu0 1 2"` (tokens exhausted after two of the ten fields), so
the whole `Stat::read` aborts and the following well-formed `cpu1` line is
never processed; `none` marks the panic. -/
theorem C8_malformed_line_aborts_read :
    CpuRs.from_line (" 1 2".toList) = none ∧
    (CpuRs.statRead
      ["cpu  1 2 3 4 5 6 7 8 9 10".toList, "cpu0 1 2".toList,
       "cpu1 1 2 3 4 5 6 7 8 9 10".toList]).isNone = true := by
  exact ⟨rfl, rfl⟩

/-- C9: for a window of capacity `c ≥ 1` fed the sample list `xs`
(one `sample` call per element, in order): with `|xs| ≤ c`, `elements()`
is exactly `xs` in insertion order; with `|xs| > c`, `elements()` has
length `c` and is exactly the last `c` inserted values, oldest first. -/
theorem C9_sliding_window_elements (c : Nat) (hc : 1 ≤ c) (xs : List Nat) :
    (xs.length ≤ c → (SlidingWindow.run Nat c xs).elements = xs) ∧
    (c < xs.length →
      (SlidingWindow.run Nat c xs).elements = xs.drop (xs.length - c) ∧
      (SlidingWindow.run Nat c xs).elements.length = c) := by
  obtain ⟨-, -, -, helts⟩ := SlidingWindow.inv_run c hc xs
  constructor
  · intro hle
    have h0 : xs.length - c = 0 := by omega
    rw [helts, h0, List.drop_zero]
  · intro hlt
    refine ⟨helts, ?_⟩
    rw [helts, List.length_drop]
    omega

/-- Witness for C9: capacity 2 with three samples keeps the last two,
oldest first; capacity 4 with three samples keeps all three in insertion
order. -/
theorem C9_witness :
    (SlidingWindow.run Nat 2 [10, 20, 30]).elements = [20, 30] ∧
    (SlidingWindow.run Nat 4 [10, 20, 30]).elements = [10, 20, 30] := by
  constructor
  · have h := (C9_sliding_window_elements 2 (by decide) [10, 20, 30]).2
      (by decide)
    rw [h.1]
    rfl
  · exact (C9_sliding_window_elements 4 (by decide) [10, 20, 30]).1
      (by decide)

/-- C10: diff is the inverse of field-wise addition — adding
`diff(newer, older)` field-wise to `older` recovers `newer` exactly,
whenever `newer ≥ older` field-wise (and `newer` is in `u64` range,
automatic in the source). -/
theorem C10_add_diff_cancel (n o : CpuRs.CPU)
    (hle : CpuRs.CPU.fieldLe o n) (hr : CpuRs.CPU.inRange n) :
    CpuRs.CPU.add o (n.diff o) = n := by
  obtain ⟨h1, h2, h3, h4, h5, h6, h7, h8, h9, h10⟩ := hle
  obtain ⟨r1, r2, r3, r4, r5, r6, r7, r8, r9, r10⟩ := hr
  cases n; cases o
  simp only [CpuRs.CPU.add, CpuRs.CPU.diff, CpuRs.CPU.mk.injEq] at *
  refine ⟨?_, ?_, ?_, ?_, ?_, ?_, ?_, ?_, ?_, ?_⟩
  all_goals
    rw [sub64_of_le _ _ (by assumption) (by assumption)]; omega

/-- Witness for C10 at the aggregate-counter scenario of spec §8. -/
theorem C10_witness :
    CpuRs.CPU.fieldLe ⟨100, 0, 50, 850, 0, 0, 0, 0, 0, 0⟩
        ⟨110, 0, 55, 935, 0, 0, 0, 0, 0, 0⟩ ∧
    CpuRs.CPU.add ⟨100, 0, 50, 850, 0, 0, 0, 0, 0, 0⟩
        (CpuRs.CPU.diff ⟨110, 0, 55, 935, 0, 0, 0, 0, 0, 0⟩
          ⟨100, 0, 50, 850, 0, 0, 0, 0, 0, 0⟩)
      = ⟨110, 0, 55, 935, 0, 0, 0, 0, 0, 0⟩ := by
  exact ⟨by decide,
    C10_add_diff_cancel ⟨110, 0, 55, 935, 0, 0, 0, 0, 0, 0⟩
      ⟨100, 0, 50, 850, 0, 0, 0, 0, 0, 0⟩ (by decide) (by decide)⟩

end Cpuline
